import Mathlib

/-!
Shallow embedding of the worker pool in src/src/ThreadPool.cpp.

The C++ class ThreadPool owns a FIFO queue of type-erased tasks
(std::queue of std::function), a vector of worker threads, a mutex,
a condition variable, and a boolean stop flag.  The embedding models
the pool as a record PoolState; every critical section of the C++
code (an operation performed while queue_mutex is held, together with
the notification that follows it) becomes one pure transition function
on PoolState.  Machine-level concurrency is represented by a step
relation that interleaves those atomic transitions; the mutex in the
source is exactly what makes each of them atomic.

Observation fields added for specification purposes:
  executed — handles of tasks in the order their execution started;
  handles  — the resolved futures (handle, outcome), in resolution order;
  wakes    — the log of condition-variable signals (notify_one or
             notify_all) issued so far.
-/

namespace ThreadPoolModel

/-- Result values of tasks (the return type R of the C++ template). -/
abbrev Value := Int

/-- Identifier of an exception thrown by a task body. -/
abbrev TaskError := Nat

/-- A task body: invoked with no arguments, it either returns a value
or throws.  In the source this is the bound callable inside the
std::packaged_task. -/
abbrev TaskBody := Except TaskError Value

instance decEqExcept {α β : Type} [DecidableEq α] [DecidableEq β] :
    DecidableEq (Except α β) := fun a b =>
  match a, b with
  | Except.ok v, Except.ok w =>
      if h : v = w then isTrue (by rw [h]) else isFalse (by simp [h])
  | Except.ok _, Except.error _ => isFalse (by simp)
  | Except.error _, Except.ok _ => isFalse (by simp)
  | Except.error e, Except.error f =>
      if h : e = f then isTrue (by rw [h]) else isFalse (by simp [h])

/-- The state a ready future holds: a value, an exception captured
while the task ran, or the future_error with code broken_promise that
is stored when a std::packaged_task is destroyed without ever having
been invoked (its shared state is abandoned). -/
inductive Outcome where
  | value (v : Value)
  | failure (e : TaskError)
  | brokenPromise
deriving DecidableEq

/-- Invoking a std::packaged_task runs the body and stores either its
return value or the thrown exception into the shared state of the
future; the invocation itself never propagates the exception. -/
def runPackaged (b : TaskBody) : Outcome :=
  match b with
  | Except.ok v => Outcome.value v
  | Except.error e => Outcome.failure e

/-- An entry of the task queue: the wrapper lambda that the submit
path pushes, remembering which future (by handle id) it writes to. -/
structure QueuedTask where
  handle : Nat
  body : TaskBody
deriving DecidableEq

/-- Which condition-variable signal was issued: notify_one from
submit, or notify_all from the destructor. -/
inductive WakeKind where
  | one
  | all
deriving DecidableEq

/-- The runtime_error thrown by submit on a stopped pool. -/
inductive SubmitError where
  | poolShutdown
deriving DecidableEq

/-- The shared state of one ThreadPool object. -/
structure PoolState where
  stop : Bool
  tasks : List QueuedTask
  workers : Nat
  handles : List (Nat × Outcome)
  nextHandle : Nat
  executed : List Nat
  wakes : List WakeKind
deriving DecidableEq

/-- ThreadPool::ThreadPool(num_threads): stop is initialised to false,
the queue is empty, and num_threads workers are spawned.  The loop
`for (size_t i = 0; i < num_threads; ++i)` performs no validation of
num_threads. -/
def mkThreadPool (num_threads : Nat) : PoolState :=
  { stop := false
    tasks := []
    workers := num_threads
    handles := []
    nextHandle := 0
    executed := []
    wakes := [] }

/-- The wrapper lambda `[task](){ (*task)(); }` pushed by submit,
paired with the handle it resolves. -/
def wrapTask (h : Nat) (b : TaskBody) : QueuedTask :=
  { handle := h, body := b }

/-- ThreadPool::submit: under the queue lock, if stop is set, throw
runtime_error \x22submit on stopped ThreadPool\x22 and leave the pool
untouched; otherwise push the wrapper onto the back of the queue,
release the lock, call condition.notify_one(), and hand the future
back to the caller. -/
def submit (s : PoolState) (b : TaskBody) : PoolState × Except SubmitError Nat :=
  if s.stop then
    (s, Except.error SubmitError.poolShutdown)
  else
    ({ s with
        tasks := s.tasks ++ [wrapTask s.nextHandle b]
        nextHandle := s.nextHandle + 1
        wakes := s.wakes ++ [WakeKind.one] },
      Except.ok s.nextHandle)

/-- What one iteration of the worker lambda did. -/
inductive WorkerAction where
  | exited
  | blocked
  | ran (h : Nat)
deriving DecidableEq

/-- One iteration of the worker lambda, entered once the
condition-variable wait can proceed: if stop is set and the queue is
empty the thread returns (exits); if the queue is empty but stop is
not set the thread keeps waiting; otherwise it pops the front task
under the lock and invokes it outside the lock, which resolves the
future of that task. -/
def workerIter (s : PoolState) : WorkerAction × PoolState :=
  if s.stop = true ∧ s.tasks = [] then
    (WorkerAction.exited, { s with workers := s.workers - 1 })
  else
    match s.tasks with
    | [] => (WorkerAction.blocked, s)
    | t :: rest =>
        (WorkerAction.ran t.handle,
          { s with
              tasks := rest
              executed := s.executed ++ [t.handle]
              handles := s.handles ++ [(t.handle, runPackaged t.body)] })

/-- First half of ThreadPool::~ThreadPool: set stop under the queue
lock, then condition.notify_all(). -/
def shutdownBegin (s : PoolState) : PoolState :=
  { s with stop := true, wakes := s.wakes ++ [WakeKind.all] }

/-- Iterate the worker loop a given number of times. -/
def runIters : Nat → PoolState → PoolState
  | 0, s => s
  | n + 1, s => runIters n (workerIter s).2

/-- Destruction of the tasks queue at the end of the object lifetime:
each wrapper still queued releases the last shared_ptr to its
packaged_task, and ~packaged_task on a shared state that was never
invoked abandons the state, storing a future_error with code
broken_promise and making the paired future ready.  After a full
drain the queue is empty and nothing is abandoned. -/
def abandonPending (s : PoolState) : PoolState :=
  { s with
      handles := s.handles ++ s.tasks.map (fun t => (t.handle, Outcome.brokenPromise)) }

/-- ThreadPool::~ThreadPool: set stop, notify_all, then join every
worker, and finally the members, among them the tasks queue, are
destroyed.  Joining blocks until each worker has run its loop to the
exit branch, so with at least one live worker the remaining queue is
consumed, every worker terminates, and the destroyed queue is empty;
with zero workers the join loop `for (std::thread &worker : workers)`
runs zero times and destroying the still-filled queue abandons the
shared state of every pending task. -/
def destructor (s : PoolState) : PoolState :=
  let s1 := shutdownBegin s
  if s1.workers = 0 then abandonPending s1
  else abandonPending (runIters (s1.tasks.length + s1.workers) s1)

/-- Lookup of a resolved future by handle id. -/
def lookupHandle : List (Nat × Outcome) → Nat → Option Outcome
  | [], _ => none
  | (k, o) :: rest, h => if k = h then some o else lookupHandle rest h

/-- std::future::get on the future of handle h: some outcome once the
shared state is ready — the paired task was invoked (the caller then
receives the value or has the captured exception rethrown) or its
packaged_task was destroyed uninvoked (the caller then has
broken_promise thrown) — and none while the caller would still be
blocked. -/
def futureGet (s : PoolState) (h : Nat) : Option Outcome :=
  lookupHandle s.handles h

/-- A sequence of submit calls, keeping only the pool state. -/
def submitMany (s : PoolState) (bs : List TaskBody) : PoolState :=
  bs.foldl (fun a b => (submit a b).1) s

/-- One atomic transition during the lifetime of the pool object: a
submit critical section, a worker-loop iteration, or the stop-setting
section of the destructor.  The rest of the destructor (joining the
workers and destroying the members) ends the lifetime of the object,
so no transition can follow it; end-of-life effects are therefore
stated by applying the destructor function to a reachable state rather
than by a step of this relation. -/
inductive Step : PoolState → PoolState → Prop where
  | submitStep (s : PoolState) (b : TaskBody) : Step s (submit s b).1
  | workerStep (s : PoolState) : Step s (workerIter s).2
  | shutdownStep (s : PoolState) : Step s (shutdownBegin s)

/-- States reachable from a freshly constructed pool. -/
def reachable (n : Nat) (s : PoolState) : Prop :=
  Relation.ReflTransGen Step (mkThreadPool n) s

/-- Every handle ever accepted is either still queued or already
executed; this list carries each accepted handle exactly once. -/
def liveHandles (s : PoolState) : List Nat :=
  s.executed ++ s.tasks.map QueuedTask.handle

/-- The pool invariant: each accepted handle (one below nextHandle)
occurs exactly once among executed and queued tasks, unaccepted
handles occur nowhere, and the resolved futures are exactly the
executed tasks in execution order. -/
def Inv (s : PoolState) : Prop :=
  (∀ h : Nat, (liveHandles s).count h = if h < s.nextHandle then 1 else 0) ∧
  s.handles.map Prod.fst = s.executed

/-! ### Basic lemmas about single transitions -/

lemma workerIter_exit_eq (s : PoolState) (hstop : s.stop = true) (ht : s.tasks = []) :
    workerIter s = (WorkerAction.exited, { s with workers := s.workers - 1 }) := by
  unfold workerIter
  rw [if_pos ⟨hstop, ht⟩]

lemma workerIter_run_eq (s : PoolState) (t : QueuedTask) (rest : List QueuedTask)
    (ht : s.tasks = t :: rest) :
    workerIter s =
      (WorkerAction.ran t.handle,
        { s with
            tasks := rest
            executed := s.executed ++ [t.handle]
            handles := s.handles ++ [(t.handle, runPackaged t.body)] }) := by
  unfold workerIter
  rw [if_neg (by rw [ht]; intro hc; exact List.cons_ne_nil t rest hc.2)]
  rw [ht]

lemma workerIter_blocked_eq (s : PoolState) (hstop : s.stop = false) (ht : s.tasks = []) :
    workerIter s = (WorkerAction.blocked, s) := by
  unfold workerIter
  rw [if_neg (by rw [hstop]; intro hc; cases hc.1)]
  rw [ht]

lemma workerIter_stop (s : PoolState) : (workerIter s).2.stop = s.stop := by
  unfold workerIter
  rcases ht : s.tasks with _ | ⟨t, rest⟩
  · by_cases hstop : s.stop = true
    · rw [if_pos ⟨hstop, rfl⟩]
    · rw [if_neg (fun hc => hstop hc.1)]
  · rw [if_neg (fun hc => List.cons_ne_nil t rest hc.2)]

lemma workerIter_nextHandle (s : PoolState) : (workerIter s).2.nextHandle = s.nextHandle := by
  unfold workerIter
  rcases ht : s.tasks with _ | ⟨t, rest⟩
  · by_cases hstop : s.stop = true
    · rw [if_pos ⟨hstop, rfl⟩]
    · rw [if_neg (fun hc => hstop hc.1)]
  · rw [if_neg (fun hc => List.cons_ne_nil t rest hc.2)]

lemma workerIter_wakes (s : PoolState) : (workerIter s).2.wakes = s.wakes := by
  unfold workerIter
  rcases ht : s.tasks with _ | ⟨t, rest⟩
  · by_cases hstop : s.stop = true
    · rw [if_pos ⟨hstop, rfl⟩]
    · rw [if_neg (fun hc => hstop hc.1)]
  · rw [if_neg (fun hc => List.cons_ne_nil t rest hc.2)]

lemma submit_stopped (s : PoolState) (b : TaskBody) (hstop : s.stop = true) :
    submit s b = (s, Except.error SubmitError.poolShutdown) := by
  unfold submit
  rw [if_pos hstop]

lemma submit_active (s : PoolState) (b : TaskBody) (hstop : s.stop = false) :
    submit s b =
      ({ s with
          tasks := s.tasks ++ [wrapTask s.nextHandle b]
          nextHandle := s.nextHandle + 1
          wakes := s.wakes ++ [WakeKind.one] },
        Except.ok s.nextHandle) := by
  unfold submit
  rw [if_neg (by rw [hstop]; exact Bool.false_ne_true)]

/-! ### Lemmas about iterated worker steps and the destructor -/

lemma runIters_add (m k : Nat) (s : PoolState) :
    runIters (m + k) s = runIters k (runIters m s) := by
  induction m generalizing s with
  | zero => rw [Nat.zero_add]; rfl
  | succ m ih =>
      have h1 : m + 1 + k = (m + k) + 1 := by omega
      rw [h1]
      show runIters (m + k) (workerIter s).2 = _
      rw [ih]
      rfl

lemma runIters_drain (ts : List QueuedTask) :
    ∀ s : PoolState, s.stop = true → s.tasks = ts →
    runIters ts.length s =
      { s with
          tasks := []
          executed := s.executed ++ ts.map QueuedTask.handle
          handles := s.handles ++ ts.map (fun t => (t.handle, runPackaged t.body)) } := by
  induction ts with
  | nil =>
      intro s hstop ht
      simp only [List.length_nil, List.map_nil, List.append_nil]
      rw [← ht]
      rfl
  | cons t rest ih =>
      intro s hstop ht
      have h2 : runIters ((t :: rest).length) s = runIters rest.length (workerIter s).2 := rfl
      have hsnd : (workerIter s).2 =
          { s with
              tasks := rest
              executed := s.executed ++ [t.handle]
              handles := s.handles ++ [(t.handle, runPackaged t.body)] } := by
        rw [workerIter_run_eq s t rest ht]
      rw [h2, hsnd]
      rw [ih { s with
              tasks := rest
              executed := s.executed ++ [t.handle]
              handles := s.handles ++ [(t.handle, runPackaged t.body)] } hstop rfl]
      simp only [List.map_cons, List.append_assoc, List.cons_append, List.nil_append,
        List.singleton_append]

lemma runIters_exit (k : Nat) :
    ∀ s : PoolState, s.stop = true → s.tasks = [] →
    runIters k s = { s with workers := s.workers - k } := by
  induction k with
  | zero =>
      intro s hstop ht
      show s = _
      simp only [Nat.sub_zero]
  | succ k ih =>
      intro s hstop ht
      have h2 : runIters (k + 1) s = runIters k (workerIter s).2 := rfl
      have hsnd : (workerIter s).2 = { s with workers := s.workers - 1 } := by
        rw [workerIter_exit_eq s hstop ht]
      rw [h2, hsnd]
      rw [ih { s with workers := s.workers - 1 } hstop ht]
      have h3 : s.workers - 1 - k = s.workers - (k + 1) := by omega
      rw [h3]

lemma destructor_zero_workers (s : PoolState) (hw : s.workers = 0) :
    destructor s = abandonPending (shutdownBegin s) := by
  show (if (shutdownBegin s).workers = 0 then abandonPending (shutdownBegin s)
        else abandonPending
          (runIters ((shutdownBegin s).tasks.length + (shutdownBegin s).workers)
            (shutdownBegin s))) = _
  rw [if_pos (show (shutdownBegin s).workers = 0 from hw)]

lemma destructor_spec (s : PoolState) (hw : 1 ≤ s.workers) :
    destructor s =
      { s with
          stop := true
          tasks := []
          workers := 0
          executed := s.executed ++ s.tasks.map QueuedTask.handle
          handles := s.handles ++ s.tasks.map (fun t => (t.handle, runPackaged t.body))
          wakes := s.wakes ++ [WakeKind.all] } := by
  show (if (shutdownBegin s).workers = 0 then abandonPending (shutdownBegin s)
        else abandonPending
          (runIters ((shutdownBegin s).tasks.length + (shutdownBegin s).workers)
            (shutdownBegin s))) = _
  rw [if_neg (show ¬ (shutdownBegin s).workers = 0 by show ¬ s.workers = 0; omega)]
  have h1 : (shutdownBegin s).tasks = s.tasks := rfl
  have h2 : (shutdownBegin s).workers = s.workers := rfl
  rw [h1, h2, runIters_add]
  rw [runIters_drain s.tasks (shutdownBegin s) rfl rfl]
  rw [runIters_exit s.workers _ rfl rfl]
  simp only [abandonPending, shutdownBegin, Nat.sub_self, List.map_nil, List.append_nil]

/-! ### Preservation of the pool invariant -/

lemma Inv_init (n : Nat) : Inv (mkThreadPool n) := by
  constructor
  · intro h
    simp [liveHandles, mkThreadPool]
  · rfl

lemma Inv_submit (s : PoolState) (b : TaskBody) (hInv : Inv s) : Inv (submit s b).1 := by
  cases hstop : s.stop with
  | true => rw [submit_stopped s b hstop]; exact hInv
  | false =>
      rw [submit_active s b hstop]
      obtain ⟨hcount, hmap⟩ := hInv
      refine ⟨?_, hmap⟩
      intro h
      have hc := hcount h
      simp only [liveHandles] at hc ⊢
      simp only [List.map_append, List.map_cons, List.map_nil, wrapTask]
      rw [List.count_append] at hc
      rw [List.count_append, List.count_append, List.count_singleton']
      split_ifs at hc ⊢ <;> omega

lemma Inv_worker (s : PoolState) (hInv : Inv s) : Inv (workerIter s).2 := by
  obtain ⟨hcount, hmap⟩ := hInv
  rcases ht : s.tasks with _ | ⟨t, rest⟩
  · cases hstop : s.stop with
    | true =>
        rw [workerIter_exit_eq s hstop ht]
        exact ⟨hcount, hmap⟩
    | false =>
        rw [workerIter_blocked_eq s hstop ht]
        exact ⟨hcount, hmap⟩
  · rw [workerIter_run_eq s t rest ht]
    constructor
    · intro h
      have hc := hcount h
      simp only [liveHandles, ht, List.map_cons] at hc ⊢
      simp only [List.count_append, List.count_cons, List.count_singleton',
        List.count_nil, beq_iff_eq] at hc ⊢
      split_ifs at hc ⊢ <;> omega
    · simp only [List.map_append, List.map_cons, List.map_nil, hmap]

lemma Inv_shutdownBegin (s : PoolState) (hInv : Inv s) : Inv (shutdownBegin s) := hInv

lemma Inv_runIters (k : Nat) :
    ∀ s : PoolState, Inv s → Inv (runIters k s) := by
  induction k with
  | zero => intro s hInv; exact hInv
  | succ k ih =>
      intro s hInv
      have h2 : runIters (k + 1) s = runIters k (workerIter s).2 := rfl
      rw [h2]
      exact ih _ (Inv_worker s hInv)

lemma Inv_step (s s' : PoolState) (hstep : Step s s') (hInv : Inv s) : Inv s' := by
  cases hstep with
  | submitStep b => exact Inv_submit s b hInv
  | workerStep => exact Inv_worker s hInv
  | shutdownStep => exact Inv_shutdownBegin s hInv

lemma reachable_Inv (n : Nat) (s : PoolState) (hr : reachable n s) : Inv s := by
  induction hr with
  | refl => exact Inv_init n
  | tail _ hstep ih => exact Inv_step _ _ hstep ih

/-- Monotonicity of the stop flag along any single step. -/
lemma Step_stop_mono (s s' : PoolState) (hstep : Step s s') (hstop : s.stop = true) :
    s'.stop = true := by
  cases hstep with
  | submitStep b => rw [submit_stopped s b hstop]; exact hstop
  | workerStep => rw [workerIter_stop]; exact hstop
  | shutdownStep => rfl

/-! ### Lemmas about future lookup and repeated submission -/

lemma lookupHandle_isSome (l : List (Nat × Outcome)) (h : Nat) :
    (lookupHandle l h).isSome = true ↔ h ∈ l.map Prod.fst := by
  induction l with
  | nil => simp [lookupHandle]
  | cons p rest ih =>
      obtain ⟨k, o⟩ := p
      by_cases hk : k = h
      · subst hk
        simp [lookupHandle]
      · simp only [lookupHandle, if_neg hk, List.map_cons, List.mem_cons]
        rw [ih]
        constructor
        · intro hm; exact Or.inr hm
        · intro hm
          cases hm with
          | inl he => exact absurd he.symm hk
          | inr hm => exact hm

lemma lookupHandle_append_fresh (l : List (Nat × Outcome)) (h : Nat) (o : Outcome)
    (hfresh : h ∉ l.map Prod.fst) :
    lookupHandle (l ++ [(h, o)]) h = some o := by
  induction l with
  | nil => simp [lookupHandle]
  | cons p rest ih =>
      obtain ⟨k, u⟩ := p
      have hk : ¬ k = h := by
        intro he
        exact hfresh (by simp [he])
      simp only [List.cons_append, lookupHandle, if_neg hk]
      exact ih (fun hm => hfresh (by simp [hm]))

lemma queued_handle_not_executed (s : PoolState) (hInv : Inv s) (t : QueuedTask)
    (rest : List QueuedTask) (ht : s.tasks = t :: rest) : t.handle ∉ s.executed := by
  intro hmem
  have hc := hInv.1 t.handle
  simp only [liveHandles, ht, List.map_cons] at hc
  rw [List.count_append] at hc
  have h1 : 0 < s.executed.count t.handle := List.count_pos_iff.2 hmem
  have h2 : 0 < (t.handle :: rest.map QueuedTask.handle).count t.handle :=
    List.count_pos_iff.2 (List.mem_cons_self _ _)
  split_ifs at hc <;> omega

lemma submitMany_spec (bs : List TaskBody) :
    ∀ s : PoolState, s.stop = false →
      (submitMany s bs).stop = false ∧
      (submitMany s bs).workers = s.workers ∧
      (submitMany s bs).executed = s.executed ∧
      (submitMany s bs).handles = s.handles ∧
      (submitMany s bs).nextHandle = s.nextHandle + bs.length ∧
      (submitMany s bs).tasks.map QueuedTask.handle =
        s.tasks.map QueuedTask.handle ++ List.range' s.nextHandle bs.length := by
  induction bs with
  | nil =>
      intro s hstop
      exact ⟨hstop, rfl, rfl, rfl, by simp [submitMany], by simp [submitMany]⟩
  | cons b rest ih =>
      intro s hstop
      have h1 : submitMany s (b :: rest) = submitMany (submit s b).1 rest := rfl
      have hfst : (submit s b).1 =
          { s with
              tasks := s.tasks ++ [wrapTask s.nextHandle b]
              nextHandle := s.nextHandle + 1
              wakes := s.wakes ++ [WakeKind.one] } := by
        rw [submit_active s b hstop]
      rw [h1, hfst]
      obtain ⟨h2, h3, h4, h5, h6, h7⟩ := ih
        { s with
            tasks := s.tasks ++ [wrapTask s.nextHandle b]
            nextHandle := s.nextHandle + 1
            wakes := s.wakes ++ [WakeKind.one] } hstop
      refine ⟨h2, h3, h4, h5, ?_, ?_⟩
      · rw [h6]
        simp only [List.length_cons]
        omega
      · rw [h7]
        simp only [List.map_append, List.map_cons, List.map_nil, wrapTask,
          List.length_cons, List.append_assoc]
        rw [List.range'_succ s.nextHandle rest.length 1]
        rfl

/-! ### Claims -/

/-- Claim C1: on a pool whose shutdown has been requested (the stop
flag is set), submit fails with the PoolShutdown error modelling the
runtime_error of the C++ code: no result handle is allocated, the task
is never appended to the queue (hence never executed), and the pool
state, in particular the queue contents, is unchanged by the failed
call. -/
theorem submit_rejected_after_shutdown (s : PoolState) (b : TaskBody)
    (hstop : s.stop = true) :
    (submit s b).2 = Except.error SubmitError.poolShutdown ∧
    (submit s b).1 = s ∧
    (submit s b).1.tasks = s.tasks ∧
    (submit s b).1.nextHandle = s.nextHandle ∧
    (submit s b).1.executed = s.executed := by
  rw [submit_stopped s b hstop]
  exact ⟨rfl, rfl, rfl, rfl, rfl⟩

/-- Witness for C1 at a concrete stopped two-worker pool. -/
theorem submit_rejected_after_shutdown_witness :
    (shutdownBegin (mkThreadPool 2)).stop = true ∧
    (submit (shutdownBegin (mkThreadPool 2)) (Except.ok 7)).2 =
      Except.error SubmitError.poolShutdown ∧
    (submit (shutdownBegin (mkThreadPool 2)) (Except.ok 7)).1 =
      shutdownBegin (mkThreadPool 2) := by
  have h := submit_rejected_after_shutdown (shutdownBegin (mkThreadPool 2))
    (Except.ok 7) (by decide)
  exact ⟨by decide, h.1, h.2.1⟩

/-- Counterexample for claim C2: constructing with zero workers is not
rejected.  mkThreadPool 0 mirrors ThreadPool::ThreadPool(0), whose
spawn loop body never runs and which performs no validation: the
result is a live pool object with an empty worker set, a clear stop
flag, and a submit path that accepts a task. -/
theorem construction_zero_workers_not_rejected :
    (mkThreadPool 0).workers = 0 ∧
    (mkThreadPool 0).stop = false ∧
    (submit (mkThreadPool 0) (Except.ok 7)).2 = Except.ok 0 := by
  refine ⟨rfl, rfl, ?_⟩
  decide

/-- Claim C2 amended: the constructor performs no validation of the
worker count; for every count, including zero, construction succeeds
and yields an active pool with that many workers, an empty queue, and
the stop flag clear. -/
theorem construction_accepts_any_worker_count (n : Nat) :
    (mkThreadPool n).workers = n ∧
    (mkThreadPool n).stop = false ∧
    (mkThreadPool n).tasks = [] :=
  ⟨rfl, rfl, rfl⟩

/-- Claim C3: a worker exits its run loop exactly when the stop flag
is set and the queue is empty; consequently teardown of a pool with at
least one worker executes every task still in the queue (the queue is
drained, never discarded) before the destructor returns. -/
theorem queue_drained_on_shutdown :
    (∀ s : PoolState,
      (workerIter s).1 = WorkerAction.exited ↔ (s.stop = true ∧ s.tasks = [])) ∧
    (∀ s : PoolState, 1 ≤ s.workers →
      (destructor s).tasks = [] ∧
      (destructor s).executed = s.executed ++ s.tasks.map QueuedTask.handle) := by
  constructor
  · intro s
    constructor
    · intro hact
      rcases ht : s.tasks with _ | ⟨t, rest⟩
      · cases hstop : s.stop with
        | true => exact ⟨rfl, rfl⟩
        | false =>
            rw [workerIter_blocked_eq s hstop ht] at hact
            simp at hact
      · rw [workerIter_run_eq s t rest ht] at hact
        simp at hact
    · intro hc
      rw [workerIter_exit_eq s hc.1 hc.2]
  · intro s hw
    rw [destructor_spec s hw]
    exact ⟨rfl, rfl⟩

/-- Witness for C3: a one-worker pool holding two accepted tasks
drains both during teardown. -/
theorem queue_drained_on_shutdown_witness :
    1 ≤ (submitMany (mkThreadPool 1) [Except.ok 4, Except.error 2]).workers ∧
    (destructor (submitMany (mkThreadPool 1) [Except.ok 4, Except.error 2])).tasks = [] ∧
    (destructor (submitMany (mkThreadPool 1) [Except.ok 4, Except.error 2])).executed =
      (submitMany (mkThreadPool 1) [Except.ok 4, Except.error 2]).executed ++
        (submitMany (mkThreadPool 1) [Except.ok 4, Except.error 2]).tasks.map
          QueuedTask.handle := by
  have h := queue_drained_on_shutdown.2
    (submitMany (mkThreadPool 1) [Except.ok 4, Except.error 2]) (by decide)
  exact ⟨by decide, h.1, h.2⟩

/-- Claim C4: submit appends at the back of the queue and a worker
always removes the head, so tasks are dequeued in exactly the order
submitted; with a single worker the execution start order equals the
submission order: a one-worker pool that accepted the bodies bs starts
them as handles 0, 1, ..., bs.length - 1.  Completion order across
several workers is not constrained by this statement. -/
theorem fifo_dequeue_order :
    (∀ (s : PoolState) (b : TaskBody), s.stop = false →
      (submit s b).1.tasks = s.tasks ++ [wrapTask s.nextHandle b]) ∧
    (∀ (s : PoolState) (t : QueuedTask) (rest : List QueuedTask),
      s.tasks = t :: rest →
      (workerIter s).1 = WorkerAction.ran t.handle ∧ (workerIter s).2.tasks = rest) ∧
    (∀ bs : List TaskBody,
      (destructor (submitMany (mkThreadPool 1) bs)).executed = List.range bs.length) := by
  refine ⟨?_, ?_, ?_⟩
  · intro s b hstop
    rw [submit_active s b hstop]
  · intro s t rest ht
    rw [workerIter_run_eq s t rest ht]
    exact ⟨rfl, rfl⟩
  · intro bs
    obtain ⟨h2, h3, h4, h5, h6, h7⟩ := submitMany_spec bs (mkThreadPool 1) rfl
    rw [destructor_spec _ (by rw [h3]; exact Nat.le_refl 1)]
    show (submitMany (mkThreadPool 1) bs).executed ++
      (submitMany (mkThreadPool 1) bs).tasks.map QueuedTask.handle = List.range bs.length
    rw [h4, h7]
    simp [mkThreadPool, List.range_eq_range']

/-- Witness for C4: appending on submit at a fresh pool, and the full
teardown of a one-worker pool that accepted two tasks starting them in
submission order. -/
theorem fifo_dequeue_order_witness :
    (mkThreadPool 1).stop = false ∧
    (submit (mkThreadPool 1) (Except.ok 4)).1.tasks =
      (mkThreadPool 1).tasks ++ [wrapTask (mkThreadPool 1).nextHandle (Except.ok 4)] ∧
    (destructor (submitMany (mkThreadPool 1) [Except.ok 4, Except.ok 6])).executed =
      List.range 2 := by
  refine ⟨rfl, ?_, ?_⟩
  · exact fifo_dequeue_order.1 (mkThreadPool 1) (Except.ok 4) rfl
  · exact fifo_dequeue_order.2.2 [Except.ok 4, Except.ok 6]

/-- Claim C5: in every reachable pool state each task is executed at
most once, each accepted task (handle below nextHandle) is accounted
for exactly once between the queue and the execution log (no task is
skipped, duplicated, or dequeued by two workers), and teardown of a
pool with at least one worker leaves every accepted task executed
exactly once. -/
theorem accepted_tasks_execute_exactly_once (n : Nat) (s : PoolState)
    (hr : reachable n s) :
    (∀ h : Nat, s.executed.count h ≤ 1) ∧
    (∀ h : Nat, h < s.nextHandle →
      s.executed.count h + (s.tasks.map QueuedTask.handle).count h = 1) ∧
    (1 ≤ s.workers → ∀ h : Nat, h < s.nextHandle →
      (destructor s).executed.count h = 1) := by
  obtain ⟨hcount, hmap⟩ := reachable_Inv n s hr
  refine ⟨?_, ?_, ?_⟩
  · intro h
    have hc := hcount h
    simp only [liveHandles] at hc
    rw [List.count_append] at hc
    split_ifs at hc <;> omega
  · intro h hlt
    have hc := hcount h
    simp only [liveHandles] at hc
    rw [List.count_append, if_pos hlt] at hc
    exact hc
  · intro hw h hlt
    rw [destructor_spec s hw]
    show (s.executed ++ s.tasks.map QueuedTask.handle).count h = 1
    have hc := hcount h
    simp only [liveHandles] at hc
    rw [if_pos hlt] at hc
    exact hc

/-- Witness for C5 on the reachable state obtained by submitting one
task to a one-worker pool and letting the worker run it. -/
theorem accepted_tasks_execute_exactly_once_witness :
    ((workerIter (submit (mkThreadPool 1) (Except.ok 5)).1).2).executed.count 0 ≤ 1 ∧
    0 < ((workerIter (submit (mkThreadPool 1) (Except.ok 5)).1).2).nextHandle ∧
    ((workerIter (submit (mkThreadPool 1) (Except.ok 5)).1).2).executed.count 0 +
      (((workerIter (submit (mkThreadPool 1) (Except.ok 5)).1).2).tasks.map
        QueuedTask.handle).count 0 = 1 := by
  have hr : reachable 1 ((workerIter (submit (mkThreadPool 1) (Except.ok 5)).1).2) :=
    Relation.ReflTransGen.tail
      (Relation.ReflTransGen.tail Relation.ReflTransGen.refl
        (Step.submitStep (mkThreadPool 1) (Except.ok 5)))
      (Step.workerStep (submit (mkThreadPool 1) (Except.ok 5)).1)
  exact ⟨(accepted_tasks_execute_exactly_once 1 _ hr).1 0, by decide,
    (accepted_tasks_execute_exactly_once 1 _ hr).2.1 0 (by decide)⟩

/-- Claim C6: when a worker pops a task whose body throws, the
packaged_task boundary captures the exception and stores it into the
future of that task as a failure outcome; the iteration completes as a
normal ran action (the failure never escapes the run loop), the worker
is not terminated by it, and teardown still executes every other
queued task normally. -/
theorem task_failure_captured (s : PoolState) (t : QueuedTask)
    (rest : List QueuedTask) (ht : s.tasks = t :: rest) :
    (workerIter s).1 = WorkerAction.ran t.handle ∧
    (workerIter s).2.handles = s.handles ++ [(t.handle, runPackaged t.body)] ∧
    (workerIter s).2.workers = s.workers ∧
    (∀ e : TaskError, t.body = Except.error e →
      runPackaged t.body = Outcome.failure e) ∧
    (1 ≤ s.workers →
      (destructor s).executed = s.executed ++ t.handle :: rest.map QueuedTask.handle) := by
  refine ⟨?_, ?_, ?_, ?_, ?_⟩
  · rw [workerIter_run_eq s t rest ht]
  · rw [workerIter_run_eq s t rest ht]
  · rw [workerIter_run_eq s t rest ht]
  · intro e he
    rw [he]
    rfl
  · intro hw
    rw [destructor_spec s hw]
    show s.executed ++ s.tasks.map QueuedTask.handle = _
    rw [ht]
    rfl

/-- Witness for C6: a one-worker pool whose only queued task throws
exception 3; running the worker stores the captured failure into the
future of handle 0. -/
theorem task_failure_captured_witness :
    (submit (mkThreadPool 1) (Except.error 3)).1.tasks =
      [wrapTask 0 (Except.error 3)] ∧
    (workerIter (submit (mkThreadPool 1) (Except.error 3)).1).2.handles =
      (submit (mkThreadPool 1) (Except.error 3)).1.handles ++
        [((wrapTask 0 (Except.error 3)).handle,
          runPackaged (wrapTask 0 (Except.error 3)).body)] ∧
    runPackaged (wrapTask 0 (Except.error 3)).body = Outcome.failure 3 := by
  have h := task_failure_captured (submit (mkThreadPool 1) (Except.error 3)).1
    (wrapTask 0 (Except.error 3)) [] (by decide)
  exact ⟨by decide, h.2.1, h.2.2.2.1 3 rfl⟩

/-- Claim C7: in every reachable state the future of a handle is ready
exactly when the paired task has executed, so a get call returns only
once the outcome is recorded and blocks before that; when the worker
executes the head task, the future of that task receives the value of
a completing body or the captured failure of a throwing body. -/
theorem futureGet_blocks_until_outcome (n : Nat) (s : PoolState)
    (hr : reachable n s) :
    (∀ h : Nat, (futureGet s h).isSome = true ↔ h ∈ s.executed) ∧
    (∀ (t : QueuedTask) (rest : List QueuedTask), s.tasks = t :: rest →
      futureGet (workerIter s).2 t.handle = some (runPackaged t.body)) ∧
    (∀ v : Value, runPackaged (Except.ok v) = Outcome.value v) ∧
    (∀ e : TaskError, runPackaged (Except.error e) = Outcome.failure e) := by
  have hInv := reachable_Inv n s hr
  refine ⟨?_, ?_, fun v => rfl, fun e => rfl⟩
  · intro h
    rw [futureGet, lookupHandle_isSome, hInv.2]
  · intro t rest ht
    have hfresh : t.handle ∉ s.handles.map Prod.fst := by
      rw [hInv.2]
      exact queued_handle_not_executed s hInv t rest ht
    have hsnd : (workerIter s).2 =
        { s with
            tasks := rest
            executed := s.executed ++ [t.handle]
            handles := s.handles ++ [(t.handle, runPackaged t.body)] } := by
      rw [workerIter_run_eq s t rest ht]
    show lookupHandle ((workerIter s).2).handles t.handle = some (runPackaged t.body)
    rw [hsnd]
    exact lookupHandle_append_fresh s.handles t.handle (runPackaged t.body) hfresh

/-- Witness for C7: after submitting one completing task to a fresh
one-worker pool, the worker iteration resolves the future of handle 0
with the value of the body. -/
theorem futureGet_blocks_until_outcome_witness :
    futureGet ((workerIter (submit (mkThreadPool 1) (Except.ok 5)).1).2)
        (wrapTask 0 (Except.ok 5)).handle =
      some (runPackaged (wrapTask 0 (Except.ok 5)).body) := by
  have hr : reachable 1 (submit (mkThreadPool 1) (Except.ok 5)).1 :=
    Relation.ReflTransGen.tail Relation.ReflTransGen.refl
      (Step.submitStep (mkThreadPool 1) (Except.ok 5))
  exact (futureGet_blocks_until_outcome 1 _ hr).2.1
    (wrapTask 0 (Except.ok 5)) [] (by decide)

/-- Claim C8: a successful submit wraps the task so that invoking the
wrapper resolves the associated handle with the value of the body or
its captured failure, appends the wrapper to the back of the queue in
the lock-protected section, issues exactly one single wake signal
(notify_one, not a broadcast), and returns the fresh handle to the
caller without further blocking. -/
theorem submit_success_effects (s : PoolState) (b : TaskBody)
    (hstop : s.stop = false) :
    (submit s b).2 = Except.ok s.nextHandle ∧
    (submit s b).1.tasks = s.tasks ++ [wrapTask s.nextHandle b] ∧
    (submit s b).1.wakes = s.wakes ++ [WakeKind.one] ∧
    (submit s b).1.nextHandle = s.nextHandle + 1 ∧
    (wrapTask s.nextHandle b).handle = s.nextHandle ∧
    (∀ v : Value, b = Except.ok v →
      runPackaged (wrapTask s.nextHandle b).body = Outcome.value v) ∧
    (∀ e : TaskError, b = Except.error e →
      runPackaged (wrapTask s.nextHandle b).body = Outcome.failure e) := by
  rw [submit_active s b hstop]
  refine ⟨rfl, rfl, rfl, rfl, rfl, ?_, ?_⟩
  · intro v hv
    subst hv
    rfl
  · intro e he
    subst he
    rfl

/-- Witness for C8 at a fresh three-worker pool. -/
theorem submit_success_effects_witness :
    (submit (mkThreadPool 3) (Except.ok 9)).2 =
      Except.ok (mkThreadPool 3).nextHandle ∧
    (submit (mkThreadPool 3) (Except.ok 9)).1.wakes =
      (mkThreadPool 3).wakes ++ [WakeKind.one] ∧
    runPackaged (wrapTask (mkThreadPool 3).nextHandle (Except.ok 9)).body =
      Outcome.value 9 := by
  have h := submit_success_effects (mkThreadPool 3) (Except.ok 9) rfl
  exact ⟨h.1, h.2.2.1, h.2.2.2.2.2.1 9 rfl⟩

/-- Claim C9: the stop flag starts false at construction, is monotone
along every atomic step of the system (once set it is never reset by
any operation), is set by the lock-protected first half of the
destructor which then issues a broadcast wake (notify_all, not a
single wake), and teardown of a pool with live workers waits until
every worker has terminated. -/
theorem stop_flag_monotonic :
    (∀ n : Nat, (mkThreadPool n).stop = false) ∧
    (∀ s s' : PoolState, Step s s' → s.stop = true → s'.stop = true) ∧
    (∀ s : PoolState,
      (shutdownBegin s).stop = true ∧
      (shutdownBegin s).wakes = s.wakes ++ [WakeKind.all]) ∧
    (∀ s : PoolState, 1 ≤ s.workers →
      (destructor s).stop = true ∧ (destructor s).workers = 0) := by
  refine ⟨fun n => rfl, Step_stop_mono, fun s => ⟨rfl, rfl⟩, ?_⟩
  intro s hw
  rw [destructor_spec s hw]
  exact ⟨rfl, rfl⟩

/-- Witness for C9: a stop flag set by one shutdown step stays set
across a further step, and teardown of a fresh two-worker pool sets
the flag and joins both workers. -/
theorem stop_flag_monotonic_witness :
    (shutdownBegin (shutdownBegin (mkThreadPool 1))).stop = true ∧
    (shutdownBegin (mkThreadPool 2)).wakes =
      (mkThreadPool 2).wakes ++ [WakeKind.all] ∧
    (destructor (mkThreadPool 2)).stop = true ∧
    (destructor (mkThreadPool 2)).workers = 0 := by
  have hmono := stop_flag_monotonic.2.1 (shutdownBegin (mkThreadPool 1))
    (shutdownBegin (shutdownBegin (mkThreadPool 1)))
    (Step.shutdownStep (shutdownBegin (mkThreadPool 1))) (by decide)
  have hdtor := stop_flag_monotonic.2.2.2 (mkThreadPool 2) (by decide)
  exact ⟨hmono, (stop_flag_monotonic.2.2.1 (mkThreadPool 2)).2, hdtor.1, hdtor.2⟩

/-- Counterexample for claim C10 as originally stated: the future of
the task abandoned by the zero-worker teardown DOES become ready.  At
the concrete input workerCount = 0 with the task body Except.ok 7,
the task is accepted and never executed, but destroying the queue
abandons the shared state of its packaged_task, so the future of
handle 0 holds the broken_promise error instead of staying forever
pending. -/
theorem zero_worker_pending_future_becomes_ready :
    (destructor (submit (mkThreadPool 0) (Except.ok 7)).1).executed = [] ∧
    futureGet (destructor (submit (mkThreadPool 0) (Except.ok 7)).1) 0 =
      some Outcome.brokenPromise :=
  ⟨rfl, rfl⟩

/-- Claim C10 amended: constructing with zero workers succeeds and
yields a pool with an empty worker set; a task submitted before
shutdown is accepted, enqueued, and given a handle, but with no
workers the teardown join loop is empty, so the task is destroyed
unexecuted (still sitting in the queue when the queue dies); the
destruction abandons the shared state of its packaged_task, so the
handle becomes ready with the broken_promise error — a later get
throws broken_promise instead of returning a value. -/
theorem zero_worker_pool_edge_case (b : TaskBody) :
    (mkThreadPool 0).workers = 0 ∧
    (mkThreadPool 0).stop = false ∧
    (submit (mkThreadPool 0) b).2 = Except.ok 0 ∧
    (submit (mkThreadPool 0) b).1.tasks = [wrapTask 0 b] ∧
    (destructor (submit (mkThreadPool 0) b).1).executed = [] ∧
    (destructor (submit (mkThreadPool 0) b).1).tasks = [wrapTask 0 b] ∧
    futureGet (destructor (submit (mkThreadPool 0) b).1) 0 =
      some Outcome.brokenPromise := by
  have hs : (submit (mkThreadPool 0) b).1 =
      { mkThreadPool 0 with
          tasks := (mkThreadPool 0).tasks ++ [wrapTask (mkThreadPool 0).nextHandle b]
          nextHandle := (mkThreadPool 0).nextHandle + 1
          wakes := (mkThreadPool 0).wakes ++ [WakeKind.one] } :=
    by rw [submit_active (mkThreadPool 0) b rfl]
  have hd : destructor (submit (mkThreadPool 0) b).1 =
      abandonPending (shutdownBegin (submit (mkThreadPool 0) b).1) :=
    destructor_zero_workers _ (by rw [hs]; rfl)
  refine ⟨rfl, rfl, ?_, ?_, ?_, ?_, ?_⟩
  · rw [submit_active (mkThreadPool 0) b rfl]
    rfl
  · rw [hs]
    rfl
  · rw [hd, hs]
    rfl
  · rw [hd, hs]
    rfl
  · rw [hd, hs]
    rfl
